import Mathlib

set_option maxRecDepth 8192

/-!
Verification of the chunking, discovery, batching and retrieval-formatting
pipeline of the `rag_mcp_example` repository.  Python text is modelled as
`List Char` (a Python `str` is a sequence of code points); the generator
functions become Lean list-producing functions; the `while` loop of
`chunk_text` is embedded with a fuel parameter (the fuel is always
sufficient, see `chunkLoop_eq_spec`).
-/

/-- Whitespace test used by Python `str.strip` on ASCII text
(space, tab, newline, carriage return, vertical tab, form feed). -/
def pyIsSpace (c : Char) : Bool :=
  c == ' ' || c == '\t' || c == '\n' || c == '\r' || c == '\x0b' || c == '\x0c'

/-- Model of Python `str.strip()`: drop whitespace from both ends. -/
def strip (s : List Char) : List Char :=
  ((s.dropWhile pyIsSpace).reverse.dropWhile pyIsSpace).reverse

/-- Model of Python `str.splitlines()` restricted to `'\n'` line boundaries:
the empty string gives no lines and a trailing newline does not produce a
trailing empty line. -/
def splitlines : List Char → List (List Char)
  | [] => []
  | c :: rest =>
    if c == '\n' then [] :: splitlines rest
    else
      match splitlines rest with
      | [] => [[c]]
      | line :: more => (c :: line) :: more

/-- Model of Python `"\n".join(lines)`. -/
def joinNL : List (List Char) → List Char
  | [] => []
  | [l] => l
  | l :: ls => l ++ '\n' :: joinNL ls

/-- A yielded chunk of `chunk_text`: text, start_line, end_line. -/
abbrev PyChunk := List Char × Nat × Nat

/-- Step between window starts: Python `max(1, chunk_lines - chunk_overlap)`.
`chunk_overlap` is a Python `int`, so it is modelled as `Int`. -/
def stepOf (chunk_lines : Nat) (chunk_overlap : Int) : Nat :=
  (max 1 ((chunk_lines : Int) - chunk_overlap)).toNat

/-- Fuel-indexed embedding of the `while start < len(lines)` loop of
`chunk_text` (src/chromadb_code_rag.py lines 60-66).  Each iteration
consumes one unit of fuel; `chunk_text` supplies `lines.length` fuel,
which is always enough because the step is at least 1. -/
def chunkLoop (lines : List (List Char)) (chunk_lines step : Nat) :
    Nat → Nat → List PyChunk
  | 0, _ => []
  | fuel + 1, start =>
    if start < lines.length then
      let e := min lines.length (start + chunk_lines)
      let chunk := strip (joinNL ((lines.drop start).take (e - start)))
      if chunk = [] then chunkLoop lines chunk_lines step fuel (start + step)
      else (chunk, start + 1, e) :: chunkLoop lines chunk_lines step fuel (start + step)
    else []

/-- Embedding of `chunk_text` (src/chromadb_code_rag.py lines 50-66). -/
def chunk_text (text : List Char) (chunk_lines : Nat) (chunk_overlap : Int) :
    List PyChunk :=
  let lines := splitlines text
  if lines = [] then []
  else chunkLoop lines chunk_lines (stepOf chunk_lines chunk_overlap) lines.length 0

/-- Spec-side description of candidate window number `k` (start offset
`k * step`): the window covers lines `[k*step, min Lines (k*step+chunk_lines))`,
its text is the window's lines joined with newlines and stripped, and the
window yields a chunk exactly when that text is nonempty. -/
def windowChunk (lines : List (List Char)) (chunk_lines step k : Nat) :
    Option PyChunk :=
  let s := k * step
  let e := min lines.length (s + chunk_lines)
  let chunk := strip (joinNL ((lines.drop s).take (e - s)))
  if chunk = [] then none else some (chunk, s + 1, e)

/-- Number of candidate windows for `L` lines: `ceil(L / step)`. -/
def numWindows (L step : Nat) : Nat := (L + step - 1) / step

/-- Spec-side closed form of the windowing invariant (spec section 3): the
chunks are the non-empty window texts for starts `0, step, 2*step, ...`
while the start is below the line count, in increasing order of start. -/
def specChunks (lines : List (List Char)) (chunk_lines step : Nat) : List PyChunk :=
  (List.range (numWindows lines.length step)).filterMap
    (windowChunk lines chunk_lines step)

/-- Number of candidate windows whose text strips to empty. -/
def emptyWindowCount (lines : List (List Char)) (chunk_lines step : Nat) : Nat :=
  ((List.range (numWindows lines.length step)).filter
    (fun k => (windowChunk lines chunk_lines step k).isNone)).length

/-- Embedding of the `Chunk` dataclass (src/chromadb_code_rag.py lines 16-22). -/
structure Chunk where
  doc_id : List Char
  document : List Char
  metadata : List (List Char × List Char)
deriving DecidableEq

/-- Chunk id `f"{relative}::{idx}"` built by `discover_chunks`. -/
def mkDocId (relative : List Char) (idx : Nat) : List Char :=
  relative ++ ("::").data ++ (Nat.repr idx).data

/-- Metadata map built by `discover_chunks` for one chunk. -/
def chunkMetadata (relative : List Char) (start_line end_line : Nat)
    (source_dir collection : List Char) : List (List Char × List Char) :=
  [(("path").data, relative),
   (("start_line").data, (Nat.repr start_line).data),
   (("end_line").data, (Nat.repr end_line).data),
   (("source_dir").data, source_dir),
   (("collection").data, collection)]

/-- Per-file body of `discover_chunks` (src/chromadb_code_rag.py lines 99-111):
enumerate the chunks of one file and attach ids and metadata. -/
def fileChunks (source_dir relative text : List Char) (chunk_lines : Nat)
    (chunk_overlap : Int) (collection : List Char) : List Chunk :=
  (chunk_text text chunk_lines chunk_overlap).enum.map (fun p =>
    { doc_id := mkDocId relative p.1
      document := p.2.1
      metadata := chunkMetadata relative p.2.2.1 p.2.2.2 source_dir collection })

/-- A selected source file as seen by `discover_chunks`: its relative posix
path and its content; `none` content models an `OSError` from `read_text`,
in which case the file is skipped. -/
structure SrcFile where
  rel : List Char
  content : Option (List Char)
deriving DecidableEq

/-- Embedding of `discover_chunks` (src/chromadb_code_rag.py lines 82-111)
over the already-selected files: files failing to read are skipped, every
other file contributes its enumerated chunks in order. -/
def discover_chunks (files : List SrcFile) (chunk_lines : Nat)
    (chunk_overlap : Int) (source_dir collection : List Char) : List Chunk :=
  files.flatMap (fun f =>
    match f.content with
    | none => []
    | some text => fileChunks source_dir f.rel text chunk_lines chunk_overlap collection)

/-- Accumulator loop of `batched` (src/chromadb_code_rag.py lines 69-79):
append each item to the running batch and yield the batch whenever its
length reaches `size`; yield any non-empty leftover at the end. -/
def batchedGo {α : Type} (size : Nat) (batch : List α) : List α → List (List α)
  | [] => if batch.isEmpty then [] else [batch]
  | item :: rest =>
    let b := batch ++ [item]
    if size ≤ b.length then b :: batchedGo size [] rest
    else batchedGo size b rest

/-- Embedding of `batched` (src/chromadb_code_rag.py lines 69-79). -/
def batched {α : Type} (l : List α) (size : Nat) : List (List α) :=
  batchedGo size [] l

/-- A directory entry reached by `root.rglob("*")` in `iter_code_files`:
its path components relative to the root, whether it is a regular file, its
lower-relevant suffix, and the `stat` result (`none` models an `OSError`). -/
structure FSEntry where
  rel_parts : List (List Char)
  is_file : Bool
  suffix : List Char
  stat_size : Option Nat
deriving DecidableEq

/-- Python `part.startswith(".")` for one path component. -/
def startsWithDot : List Char → Bool
  | [] => false
  | c :: _ => c == '.'

/-- Python `s.lower()` on a suffix. -/
def lowerStr (s : List Char) : List Char := s.map Char.toLower

/-- Embedding of `iter_code_files` (src/chromadb_code_rag.py lines 25-47)
over the entries enumerated under the root: keep regular files that pass
the hidden-component, extension and size filters; entries whose `stat`
raises are skipped. `max_file_mb` is a Python float, modelled as `ℚ`. -/
def iter_code_files (entries : List FSEntry) (extensions : List (List Char))
    (include_hidden : Bool) (max_file_mb : ℚ) : List FSEntry :=
  entries.filter (fun path =>
    path.is_file &&
    (include_hidden || !(path.rel_parts.any startsWithDot)) &&
    (extensions.isEmpty || decide (lowerStr path.suffix ∈ extensions)) &&
    (match path.stat_size with
     | some n => decide ((n : ℚ) ≤ max_file_mb * 1024 * 1024)
     | none => false))

/-- Python value stored in a metadata map coming back from the store:
a string, an integer, or `None`. -/
inductive PyVal where
  | str (s : List Char)
  | int (n : Int)
  | none
deriving DecidableEq

/-- Python `str(value)` on a metadata value. -/
def pyStr : PyVal → List Char
  | PyVal.str s => s
  | PyVal.int n => (toString n).data
  | PyVal.none => ("None").data

/-- The dict comprehension of `_query_collection_sync`
(src/chromadb_mcp_server.py line 76): keys whose value is `None` are
dropped, every kept value is coerced with `str`. -/
def cleanMetadata (metadata : Option (List (List Char × PyVal))) :
    List (List Char × List Char) :=
  (metadata.getD []).filterMap (fun kv =>
    if kv.2 = PyVal.none then Option.none else some (kv.1, pyStr kv.2))

/-- A store reply as consumed by `_query_collection_sync`: the first-query
inner lists for metadatas, documents and distances.  A `none` field models
an absent key (the code then substitutes an empty list); a `none` element
models a `None` entry.  Distances are modelled as `ℚ`. -/
structure QueryReply where
  metadatas : Option (List (Option (List (List Char × PyVal))))
  documents : Option (List (Option (List Char)))
  distances : Option (List (Option ℚ))

/-- Embedding of the cleaning half of `_query_collection_sync`
(src/chromadb_mcp_server.py lines 70-78): zip the three parallel lists and
clean each triple, defaulting a `None` document to `""` and a `None`
distance to `0.0`. -/
def query_collection_clean (reply : QueryReply) :
    List (List (List Char × List Char) × List Char × ℚ) :=
  let metadatas := reply.metadatas.getD []
  let documents := reply.documents.getD []
  let distances := reply.distances.getD []
  (metadatas.zip (documents.zip distances)).map (fun t =>
    (cleanMetadata t.1, (t.2.1).getD [], (t.2.2).getD 0))

/-- Embedding of `_validate_positive` (src/chromadb_mcp_server.py
lines 143-145): raising `ValueError` becomes returning `Except.error`. -/
def validate_positive (name : List Char) (value : Int) : Except (List Char) Unit :=
  if value ≤ 0 then Except.error (name ++ (" must be greater than zero.").data)
  else Except.ok ()

/-- The first storage interaction a tool would perform after validation. -/
inductive StoreEffect where
  | queryCollection (db_dir collection question : List Char) (top_k : Int)
  | fetchRows (db_dir collection : List Char) (limit offset : Int)
      (include_documents : Bool)
deriving DecidableEq

/-- Validation layer of `query_codebase` (src/chromadb_mcp_server.py
lines 163-180): `top_k` is validated before the collection is opened or
queried; an `Except.error` result means the `ValueError` was raised before
any storage call. -/
def query_codebase (question : List Char) (top_k : Int)
    (collection db_dir : List Char) : Except (List Char) StoreEffect :=
  match validate_positive (("top_k").data) top_k with
  | Except.error e => Except.error e
  | Except.ok _ => Except.ok (StoreEffect.queryCollection db_dir collection question top_k)

/-- Validation layer of `list_rows` (src/chromadb_mcp_server.py
lines 195-216): `limit` and `offset` are validated before the client or
collection is touched. -/
def list_rows (collection db_dir : List Char) (limit offset : Int)
    (include_documents : Bool) : Except (List Char) StoreEffect :=
  match validate_positive (("limit").data) limit with
  | Except.error e => Except.error e
  | Except.ok _ =>
    if offset < 0 then Except.error (("offset must be zero or greater.").data)
    else Except.ok (StoreEffect.fetchRows db_dir collection limit offset include_documents)

/-- A 100-line file, every line the single character `x`. -/
def text100 : List Char := joinNL (List.replicate 100 ['x'])

/-- A 4-line file `"a\nb\n \n "` whose final chunk window (for
`chunk_lines = 2`, `chunk_overlap = 0`) strips to empty. -/
def textWsTail : List Char := ("a\nb\n \n ").data

/-- A 2-line file `"a\nb"`. -/
def textAB : List Char := ("a\nb").data

/-- A 2-line file `" \nb"` whose first one-line window strips to empty. -/
def textWsB : List Char := (" \nb").data

/-! ## Helper lemmas -/

lemma stepOf_pos (c : Nat) (o : Int) : 1 ≤ stepOf c o := by
  unfold stepOf
  omega

lemma numWindows_le (L step : Nat) (h : 1 ≤ step) : numWindows L step ≤ L := by
  unfold numWindows
  have h2 : L ≤ step * L := Nat.le_mul_of_pos_left L h
  rw [Nat.div_le_iff_le_mul_add_pred h]
  omega

lemma numWindows_mul_ge (L step : Nat) (h : 1 ≤ step) :
    L ≤ numWindows L step * step := by
  unfold numWindows
  have hd := Nat.div_add_mod (L + step - 1) step
  have hm : (L + step - 1) % step < step := Nat.mod_lt _ h
  have hc : step * ((L + step - 1) / step) = (L + step - 1) / step * step :=
    Nat.mul_comm _ _
  omega

lemma lt_numWindows_iff (L step k : Nat) (h : 1 ≤ step) :
    k < numWindows L step ↔ k * step < L := by
  have he : (k + 1) * step = k * step + step := by ring
  constructor
  · intro hk
    have hle : k + 1 ≤ numWindows L step := hk
    rw [numWindows, Nat.le_div_iff_mul_le h] at hle
    by_cases hL : L = 0
    · subst hL
      exfalso
      have h0 : numWindows 0 step = 0 := by
        unfold numWindows
        exact Nat.div_eq_of_lt (by omega)
      omega
    · omega
  · intro hk
    have hle : k + 1 ≤ numWindows L step := by
      rw [numWindows, Nat.le_div_iff_mul_le h]
      omega
    omega

lemma chunkLoop_eq_spec (lines : List (List Char)) (c step : Nat)
    (hstep : 1 ≤ step) :
    ∀ fuel k, numWindows lines.length step - k ≤ fuel →
      chunkLoop lines c step fuel (k * step) =
        (List.range' k (numWindows lines.length step - k)).filterMap
          (windowChunk lines c step) := by
  intro fuel
  induction fuel with
  | zero =>
    intro k hk
    have h0 : numWindows lines.length step - k = 0 := by omega
    rw [h0]
    rfl
  | succ fuel ih =>
    intro k hk
    by_cases hlt : k * step < lines.length
    · have hkw : k < numWindows lines.length step :=
        (lt_numWindows_iff lines.length step k hstep).mpr hlt
      have hrange : numWindows lines.length step - k =
          (numWindows lines.length step - (k + 1)) + 1 := by omega
      rw [hrange, List.range'_succ]
      rw [List.filterMap_cons]
      have hrec : k * step + step = (k + 1) * step := by ring
      have hih := ih (k + 1) (by omega)
      show chunkLoop lines c step (fuel + 1) (k * step) = _
      rw [chunkLoop]
      simp only [if_pos hlt]
      rw [hrec, hih]
      simp only [windowChunk]
      split
      · rfl
      · rfl
    · have hkw : ¬ k < numWindows lines.length step := by
        intro hc
        exact hlt ((lt_numWindows_iff lines.length step k hstep).mp hc)
      have h0 : numWindows lines.length step - k = 0 := by omega
      rw [h0]
      show chunkLoop lines c step (fuel + 1) (k * step) = _
      rw [chunkLoop]
      simp only [if_neg hlt]
      rfl

lemma chunk_text_eq_specChunks (t : List Char) (c : Nat) (o : Int) :
    chunk_text t c o = specChunks (splitlines t) c (stepOf c o) := by
  unfold chunk_text specChunks
  set lines := splitlines t with hl
  set step := stepOf c o with hs
  have hstep : 1 ≤ step := stepOf_pos c o
  by_cases hnil : lines = []
  · rw [if_pos hnil, hnil]
    have : numWindows (0 : Nat) step = 0 := by
      unfold numWindows
      exact Nat.div_eq_of_lt (by omega)
    simp [this]
  · rw [if_neg hnil]
    have h0 := chunkLoop_eq_spec lines c step hstep lines.length 0
      (by simpa using numWindows_le lines.length step hstep)
    simpa [List.range_eq_range'] using h0

lemma mem_splitlines_space (t : List Char) (h : ∀ ch ∈ t, pyIsSpace ch = true) :
    ∀ l ∈ splitlines t, ∀ ch ∈ l, pyIsSpace ch = true := by
  induction t with
  | nil =>
    intro l hl
    simp [splitlines] at hl
  | cons c rest ih =>
    intro l hl ch hch
    have hc : pyIsSpace c = true := h c (by simp)
    have hrest : ∀ x ∈ rest, pyIsSpace x = true := fun x hx => h x (by simp [hx])
    simp only [splitlines] at hl
    by_cases hnl : c == '\n'
    · rw [if_pos hnl] at hl
      rcases List.mem_cons.mp hl with h1 | h1
      · subst h1
        simp at hch
      · exact ih hrest l h1 ch hch
    · rw [if_neg hnl] at hl
      cases hsp : splitlines rest with
      | nil =>
        rw [hsp] at hl
        simp at hl
        subst hl
        simp at hch
        subst hch
        exact hc
      | cons line more =>
        rw [hsp] at hl
        rcases List.mem_cons.mp hl with h1 | h1
        · subst h1
          rcases List.mem_cons.mp hch with h2 | h2
          · subst h2
            exact hc
          · exact ih hrest line (by rw [hsp]; exact List.mem_cons_self _ _) ch h2
        · exact ih hrest l (by rw [hsp]; exact List.mem_cons_of_mem _ h1) ch hch

lemma mem_joinNL (L : List (List Char)) (ch : Char) (h : ch ∈ joinNL L) :
    ch = '\n' ∨ ∃ l ∈ L, ch ∈ l := by
  induction L with
  | nil => simp [joinNL] at h
  | cons l ls ih =>
    cases ls with
    | nil =>
      simp only [joinNL] at h
      right
      exact ⟨l, by simp, h⟩
    | cons l2 ls2 =>
      simp only [joinNL] at h
      rcases List.mem_append.mp h with h1 | h1
      · right
        exact ⟨l, by simp, h1⟩
      · rcases List.mem_cons.mp h1 with h2 | h2
        · left
          exact h2
        · rcases ih h2 with h3 | ⟨l', hl', hch⟩
          · left
            exact h3
          · right
            exact ⟨l', List.mem_cons_of_mem _ hl', hch⟩

lemma strip_space_eq_nil (s : List Char) (h : ∀ ch ∈ s, pyIsSpace ch = true) :
    strip s = [] := by
  unfold strip
  have h1 : s.dropWhile pyIsSpace = [] := List.dropWhile_eq_nil_iff.mpr h
  rw [h1]
  rfl

lemma windowChunk_space (lines : List (List Char)) (c step k : Nat)
    (h : ∀ l ∈ lines, ∀ ch ∈ l, pyIsSpace ch = true) :
    windowChunk lines c step k = none := by
  have hs : strip (joinNL ((lines.drop (k * step)).take
      (min lines.length (k * step + c) - k * step))) = [] := by
    apply strip_space_eq_nil
    intro ch hch
    rcases mem_joinNL _ ch hch with h1 | ⟨l, hl, hch'⟩
    · subst h1
      decide
    · exact h l (List.mem_of_mem_drop (List.mem_of_mem_take hl)) ch hch'
  simp only [windowChunk]
  rw [hs]
  rfl

lemma length_filterMap_add_none {α β : Type} (f : α → Option β) (l : List α) :
    (l.filterMap f).length + (l.filter (fun a => (f a).isNone)).length = l.length := by
  induction l with
  | nil => rfl
  | cons a l ih =>
    cases hfa : f a with
    | none =>
      have h1 : (a :: l).filterMap f = l.filterMap f := by
        simp [List.filterMap_cons, hfa]
      have h2 : (a :: l).filter (fun a => (f a).isNone) =
          a :: l.filter (fun a => (f a).isNone) := by
        simp [List.filter_cons, hfa]
      rw [h1, h2, List.length_cons, List.length_cons]
      omega
    | some b =>
      have h1 : (a :: l).filterMap f = b :: l.filterMap f := by
        simp [List.filterMap_cons, hfa]
      have h2 : (a :: l).filter (fun a => (f a).isNone) =
          l.filter (fun a => (f a).isNone) := by
        simp [List.filter_cons, hfa]
      rw [h1, h2, List.length_cons, List.length_cons]
      omega

lemma specChunks_getLast (lines : List (List Char)) (c step : Nat)
    (hstep : 1 ≤ step) (hc : step ≤ c) (hL : 0 < lines.length)
    (hw : windowChunk lines c step (numWindows lines.length step - 1) ≠ none) :
    ∃ p, (specChunks lines c step).getLast? = some p ∧ p.2.2 = lines.length := by
  set L := lines.length with hLdef
  set nw := numWindows L step with hnw
  have hnw1 : 1 ≤ nw := by
    have := (lt_numWindows_iff L step 0 hstep).mpr (by omega)
    omega
  cases hwc : windowChunk lines c step (nw - 1) with
  | none => exact absurd hwc hw
  | some p =>
    have hrange : List.range nw = List.range (nw - 1) ++ [nw - 1] := by
      have hsucc : nw = (nw - 1) + 1 := by omega
      conv_lhs => rw [hsucc]
      exact List.range_succ _
    have hlast : (specChunks lines c step).getLast? = some p := by
      unfold specChunks
      rw [← hnw, hrange, List.filterMap_append]
      have : List.filterMap (windowChunk lines c step) [nw - 1] = [p] := by
        simp [List.filterMap_cons, hwc]
      rw [this]
      exact List.getLast?_concat _
    refine ⟨p, hlast, ?_⟩
    have hmin : min L ((nw - 1) * step + c) = L := by
      have hge := numWindows_mul_ge L step hstep
      rw [← hnw] at hge
      have hexp : nw * step = (nw - 1) * step + step := by
        have h1 : nw = (nw - 1) + 1 := by omega
        calc nw * step = ((nw - 1) + 1) * step := by rw [← h1]
        _ = (nw - 1) * step + step := by ring
      exact Nat.min_eq_left (by omega)
    simp only [windowChunk] at hwc
    split at hwc
    · exact absurd hwc (by simp)
    · have hp := Option.some.inj hwc
      rw [← hp]
      simpa [← hLdef] using hmin

lemma windowChunk_some_fields (lines : List (List Char)) (c step k : Nat)
    (p : PyChunk) (h : windowChunk lines c step k = some p) :
    p.1 = strip (joinNL ((lines.drop (k * step)).take
      (min lines.length (k * step + c) - k * step))) ∧
    p.1 ≠ [] ∧ p.2.1 = k * step + 1 ∧
    p.2.2 = min lines.length (k * step + c) := by
  simp only [windowChunk] at h
  by_cases hne : strip (joinNL ((lines.drop (k * step)).take
      (min lines.length (k * step + c) - k * step))) = []
  · rw [if_pos hne] at h
    exact absurd h (by simp)
  · rw [if_neg hne] at h
    have hp := Option.some.inj h
    rw [← hp]
    exact ⟨rfl, hne, rfl, rfl⟩

lemma fileChunks_map_doc_id (source_dir relative text : List Char)
    (c : Nat) (o : Int) (collection : List Char) :
    (fileChunks source_dir relative text c o collection).map (fun ch => ch.doc_id) =
      (List.range (chunk_text text c o).length).map (mkDocId relative) := by
  unfold fileChunks
  rw [List.map_map, ← List.enum_map_fst (chunk_text text c o), List.map_map]
  rfl

/-! ## Claim theorems -/

/-- C1: `chunk_text` realises the windowing invariant of the spec.  Its
output is exactly the closed-form window list `specChunks`: candidate
window starts are `0, step, 2*step, ...` with `step = max(1, chunk_lines -
chunk_overlap)`, each window covers lines `[start, min(L, start + chunk_lines))`,
generation stops exactly when `start ≥ L`, and the yielded `(start_line,
end_line)` pairs are `(start + 1, min(L, start + chunk_lines))` for those
windows, in increasing order of start (second conjunct). -/
theorem chunk_text_window_structure (t : List Char) (c : Nat) (o : Int) :
    chunk_text t c o = specChunks (splitlines t) c (stepOf c o) ∧
    (chunk_text t c o).Pairwise (fun p q => p.2.1 < q.2.1) := by
  refine ⟨chunk_text_eq_specChunks t c o, ?_⟩
  rw [chunk_text_eq_specChunks t c o]
  unfold specChunks
  rw [List.pairwise_filterMap]
  refine List.Pairwise.imp ?_ (List.pairwise_lt_range _)
  intro a b hab p hp q hq
  have h1 := (windowChunk_some_fields _ c _ a p (Option.mem_def.mp hp)).2.2.1
  have h2 := (windowChunk_some_fields _ c _ b q (Option.mem_def.mp hq)).2.2.1
  rw [h1, h2]
  have hstep : 1 ≤ stepOf c o := stepOf_pos c o
  have := (Nat.mul_lt_mul_right (show 0 < stepOf c o by omega)).mpr hab
  omega

/-- C2 counterexample: `text100` really is a 100-line file, yet ingesting
it through `discover_chunks` with `chunk_lines = 40`, `chunk_overlap = 10`
does NOT satisfy the spec scenario (exactly three chunks, ids `f::0, f::1,
f::2`, covering lines 1-40, 31-70, 61-100): the loop also runs at start
90 (`90 < 100`), yielding a fourth chunk, so the instantiated scenario
conjunction is false. -/
theorem hundred_line_scenario_counterexample :
    (splitlines text100).length = 100 ∧
    ¬ ((discover_chunks [SrcFile.mk (("f").data) (some text100)] 40 10
          (("s").data) (("k").data)).length = 3 ∧
       (discover_chunks [SrcFile.mk (("f").data) (some text100)] 40 10
          (("s").data) (("k").data)).map (fun ch => ch.doc_id) =
         [mkDocId (("f").data) 0, mkDocId (("f").data) 1,
          mkDocId (("f").data) 2] ∧
       (chunk_text text100 40 10).map (fun p => (p.2.1, p.2.2)) =
         [(1, 40), (31, 70), (61, 100)]) := by
  decide

/-- C2 (amended): ingesting the 100-line file `text100` (step `30`, no
all-whitespace windows: `emptyWindowCount = 0`) through `discover_chunks`
produces exactly FOUR chunks, covering lines 1-40, 31-70, 61-100 and
91-100, with chunk ids `f::0, f::1, f::2, f::3`. -/
theorem hundred_line_scenario_amended :
    (splitlines text100).length = 100 ∧
    stepOf 40 10 = 30 ∧
    emptyWindowCount (splitlines text100) 40 (stepOf 40 10) = 0 ∧
    (discover_chunks [SrcFile.mk (("f").data) (some text100)] 40 10
        (("s").data) (("k").data)).length = 4 ∧
    (chunk_text text100 40 10).map (fun p => (p.2.1, p.2.2)) =
      [(1, 40), (31, 70), (61, 100), (91, 100)] ∧
    (discover_chunks [SrcFile.mk (("f").data) (some text100)] 40 10
        (("s").data) (("k").data)).map (fun ch => ch.doc_id) =
      [mkDocId (("f").data) 0, mkDocId (("f").data) 1,
       mkDocId (("f").data) 2, mkDocId (("f").data) 3] := by
  decide

/-- C3 counterexample: for the 4-line file `"a\nb\n \n "` with
`chunk_lines = 2`, `chunk_overlap = 0` (so `0 ≤ o < c`), the final window
strips to empty and is dropped, so the last yielded chunk ends at line 2
while `L = 4`: the claim's conjunction (chunk count formula AND last
end_line equals `L`) is false at this input. -/
theorem chunk_count_lastline_counterexample :
    ¬ ((chunk_text textWsTail 2 0).length =
        numWindows (splitlines textWsTail).length (stepOf 2 0) -
          emptyWindowCount (splitlines textWsTail) 2 (stepOf 2 0) ∧
       ∃ p, (chunk_text textWsTail 2 0).getLast? = some p ∧
         p.2.2 = (splitlines textWsTail).length) := by
  rintro ⟨-, p, hp, he⟩
  have h1 : (chunk_text textWsTail 2 0).getLast? =
      some ((("a\nb").data), 1, 2) := by decide
  rw [h1] at hp
  have hp2 := Option.some.inj hp
  rw [← hp2] at he
  have h4 : (splitlines textWsTail).length = 4 := by decide
  rw [h4] at he
  exact absurd he (by decide)

/-- C3 (amended): for a file of `L > 0` lines chunked with `0 ≤ o < c`,
the number of chunks yielded by `chunk_text` equals `ceil(L / max(1, c-o))`
minus the number of windows whose text strips to empty; and PROVIDED the
final window does not strip to empty, the last yielded chunk's `end_line`
equals `L`.  (The unamended claim asserts the latter unconditionally, which
the counterexample refutes.) -/
theorem chunk_count_and_final_end_line (t : List Char) (c : Nat) (o : Int)
    (ho : 0 ≤ o) (hoc : o < (c : Int))
    (hL : 0 < (splitlines t).length) :
    (chunk_text t c o).length =
      numWindows (splitlines t).length (stepOf c o) -
        emptyWindowCount (splitlines t) c (stepOf c o) ∧
    (windowChunk (splitlines t) c (stepOf c o)
        (numWindows (splitlines t).length (stepOf c o) - 1) ≠ none →
      ∃ p, (chunk_text t c o).getLast? = some p ∧
        p.2.2 = (splitlines t).length) := by
  have hstep : 1 ≤ stepOf c o := stepOf_pos c o
  have hsc : stepOf c o ≤ c := by
    unfold stepOf
    omega
  constructor
  · rw [chunk_text_eq_specChunks]
    unfold specChunks emptyWindowCount
    have hadd := length_filterMap_add_none
      (windowChunk (splitlines t) c (stepOf c o))
      (List.range (numWindows (splitlines t).length (stepOf c o)))
    have hlen := List.length_range
      (numWindows (splitlines t).length (stepOf c o))
    omega
  · intro hlast
    rw [chunk_text_eq_specChunks]
    exact specChunks_getLast (splitlines t) c (stepOf c o) hstep hsc hL hlast

/-- C3 witness: the amended theorem applied to the 1-line file `"a"` with
`chunk_lines = 1`, `chunk_overlap = 0`: one window, no empty windows, and
the last chunk ends at line 1. -/
theorem chunk_count_and_final_end_line_witness :
    (chunk_text (("a").data) 1 0).length =
      numWindows (splitlines (("a").data)).length (stepOf 1 0) -
        emptyWindowCount (splitlines (("a").data)) 1 (stepOf 1 0) ∧
    ∃ p, (chunk_text (("a").data) 1 0).getLast? = some p ∧
      p.2.2 = (splitlines (("a").data)).length := by
  have h := chunk_count_and_final_end_line (("a").data) 1 0
    (by decide) (by decide) (by decide)
  exact ⟨h.1, h.2 (by decide)⟩

/-- C4: every chunk id produced by `discover_chunks` has exactly the form
`relative_path ++ "::" ++ n` where `n` enumerates that file's surviving
chunks sequentially from zero, files appearing in order; since the
embedding is a pure function of the file contents and the chunking
parameters, running it twice on the same inputs yields the same ids in the
same order (idempotent upsert keys). -/
theorem discover_chunks_id_form (files : List SrcFile) (c : Nat) (o : Int)
    (source_dir collection : List Char) :
    (discover_chunks files c o source_dir collection).map (fun ch => ch.doc_id) =
      files.flatMap (fun f =>
        match f.content with
        | none => []
        | some text =>
          (List.range (chunk_text text c o).length).map (mkDocId f.rel)) := by
  unfold discover_chunks
  rw [List.map_flatMap]
  congr 1
  funext f
  cases hc : f.content with
  | none => rfl
  | some text => exact fileChunks_map_doc_id source_dir f.rel text c o collection

/-- C5: (1) an input that is empty or consists only of whitespace yields no
chunks; (2) every yielded chunk comes from a candidate window, its text is
the window's lines joined with newlines and stripped, and is nonempty; (3)
every candidate window whose stripped text is nonempty IS yielded — so a
dropped window still advances the windowing (the surrounding windows are
unaffected by the drop). -/
theorem chunk_text_strip_and_advance (t : List Char) (c : Nat) (o : Int) :
    ((∀ ch ∈ t, pyIsSpace ch = true) → chunk_text t c o = []) ∧
    (∀ p ∈ chunk_text t c o,
      ∃ k < numWindows (splitlines t).length (stepOf c o),
        windowChunk (splitlines t) c (stepOf c o) k = some p ∧
        p.1 = strip (joinNL (((splitlines t).drop (k * stepOf c o)).take
          (min (splitlines t).length (k * stepOf c o + c) - k * stepOf c o))) ∧
        p.1 ≠ []) ∧
    (∀ k, k < numWindows (splitlines t).length (stepOf c o) →
      ∀ p, windowChunk (splitlines t) c (stepOf c o) k = some p →
        p ∈ chunk_text t c o) := by
  refine ⟨?_, ?_, ?_⟩
  · intro h
    rw [chunk_text_eq_specChunks]
    unfold specChunks
    refine List.filterMap_eq_nil_iff.mpr ?_
    intro k _
    exact windowChunk_space (splitlines t) c (stepOf c o) k
      (mem_splitlines_space t h)
  · intro p hp
    rw [chunk_text_eq_specChunks] at hp
    unfold specChunks at hp
    obtain ⟨k, hk, hwk⟩ := List.mem_filterMap.mp hp
    have hf := windowChunk_some_fields (splitlines t) c (stepOf c o) k p hwk
    exact ⟨k, List.mem_range.mp hk, hwk, hf.1, hf.2.1⟩
  · intro k hk p hw
    rw [chunk_text_eq_specChunks]
    unfold specChunks
    exact List.mem_filterMap.mpr ⟨k, List.mem_range.mpr hk, hw⟩

/-- C5 witness: the all-whitespace one-line file `" "` yields no chunks,
and for the file `"a"` window 0 is nonempty and is indeed yielded. -/
theorem chunk_text_strip_and_advance_witness :
    chunk_text ((" ").data) 1 0 = [] ∧
    ((("a").data, 1, 1) : PyChunk) ∈ chunk_text (("a").data) 1 0 :=
  ⟨(chunk_text_strip_and_advance ((" ").data) 1 0).1 (by decide),
   (chunk_text_strip_and_advance (("a").data) 1 0).2.2 0 (by decide)
     ((("a").data, 1, 1)) (by decide)⟩

/-- C10: for every file the ids attached by the per-file loop of
`discover_chunks` are consecutive, `relative ++ "::" ++ 0` through
`relative ++ "::" ++ (k-1)` where `k` counts only the chunks that survive
whitespace stripping (first conjunct); and concretely, for `chunk_lines = 1`,
`chunk_overlap = 0`, the chunk covering lines 2-2 of `"a\nb"` gets index 1
while the chunk covering the same lines 2-2 of `" \nb"` gets index 0 — a
dropped interior window shifts all later ids down by one, so an id's index
is not determined by the chunk's line range alone. -/
theorem fileChunks_sequential_ids :
    (∀ (source_dir relative text : List Char) (c : Nat) (o : Int)
        (collection : List Char),
      (fileChunks source_dir relative text c o collection).map
          (fun ch => ch.doc_id) =
        (List.range (chunk_text text c o).length).map (mkDocId relative)) ∧
    ((fileChunks (("s").data) (("f").data) textAB 1 0 (("k").data)).map
        (fun ch => ch.doc_id) =
      [mkDocId (("f").data) 0, mkDocId (("f").data) 1] ∧
     (chunk_text textAB 1 0).map (fun p => (p.2.1, p.2.2)) = [(1, 1), (2, 2)] ∧
     (fileChunks (("s").data) (("f").data) textWsB 1 0 (("k").data)).map
        (fun ch => ch.doc_id) =
      [mkDocId (("f").data) 0] ∧
     (chunk_text textWsB 1 0).map (fun p => (p.2.1, p.2.2)) = [(2, 2)]) :=
  ⟨fun source_dir relative text c o collection =>
    fileChunks_map_doc_id source_dir relative text c o collection,
   by decide⟩

lemma batchedGo_spec {α : Type} (size : Nat) (hsize : 1 ≤ size) :
    ∀ (l batch : List α), batch.length < size →
      (batchedGo size batch l).flatten = batch ++ l ∧
      (∀ b ∈ batchedGo size batch l, b ≠ [] ∧ b.length ≤ size) ∧
      (∀ b ∈ (batchedGo size batch l).dropLast, b.length = size) := by
  intro l
  induction l with
  | nil =>
    intro batch hb
    by_cases hbe : batch = []
    · subst hbe
      refine ⟨by simp [batchedGo], ?_, by simp [batchedGo]⟩
      intro b hbmem
      simp [batchedGo] at hbmem
    · have hbe2 : batch.isEmpty = false := by
        simp [List.isEmpty_iff, hbe]
      have hres : batchedGo size batch [] = [batch] := by
        simp [batchedGo, hbe2]
      refine ⟨by simp [hres], ?_, by simp [hres]⟩
      intro b hbmem
      rw [hres] at hbmem
      simp at hbmem
      subst hbmem
      exact ⟨hbe, by omega⟩
  | cons item rest ih =>
    intro batch hb
    have hres : batchedGo size batch (item :: rest) =
        if size ≤ (batch ++ [item]).length then
          (batch ++ [item]) :: batchedGo size [] rest
        else batchedGo size (batch ++ [item]) rest := rfl
    by_cases hy : size ≤ (batch ++ [item]).length
    · have hlen : (batch ++ [item]).length = size := by
        simp only [List.length_append, List.length_cons, List.length_nil] at hy ⊢
        omega
      have ih0 := ih [] (by simpa using hsize)
      rw [hres, if_pos hy]
      refine ⟨?_, ?_, ?_⟩
      · rw [List.flatten_cons, ih0.1]
        simp
      · intro b hbmem
        rcases List.mem_cons.mp hbmem with h1 | h1
        · subst h1
          exact ⟨by simp, by omega⟩
        · exact ih0.2.1 b h1
      · intro b hbmem
        cases hxs : batchedGo size ([] : List α) rest with
        | nil =>
          rw [hxs] at hbmem
          simp at hbmem
        | cons x2 xs2 =>
          rw [hxs] at hbmem
          rw [List.dropLast_cons₂] at hbmem
          rcases List.mem_cons.mp hbmem with h1 | h1
          · subst h1
            exact hlen
          · have := ih0.2.2 b
            rw [hxs] at this
            exact this h1
    · have hlt : (batch ++ [item]).length < size := by
        simp only [List.length_append, List.length_cons, List.length_nil]
        simp only [List.length_append, List.length_cons, List.length_nil] at hy
        omega
      have ihb := ih (batch ++ [item]) hlt
      rw [hres, if_neg hy]
      refine ⟨?_, ihb.2.1, ihb.2.2⟩
      rw [ihb.1]
      simp

/-- C7: for every list of items and positive batch size, the batches
yielded by `batched` concatenate back to the input in order, every batch
except possibly the last has length exactly `size`, every batch is
non-empty with length at most `size`, and an empty input yields no
batches. -/
theorem batched_partition {α : Type} (l : List α) (size : Nat)
    (hsize : 1 ≤ size) :
    (batched l size).flatten = l ∧
    (∀ b ∈ batched l size, b ≠ [] ∧ b.length ≤ size) ∧
    (∀ b ∈ (batched l size).dropLast, b.length = size) ∧
    (l = [] → batched l size = []) := by
  have h := batchedGo_spec size hsize l [] (by simpa using hsize)
  refine ⟨by simpa using h.1, h.2.1, h.2.2, ?_⟩
  intro hl
  subst hl
  rfl

/-- C7 witness: `batched [1,2,3,4,5] 2` splits into `[1,2], [3,4], [5]`. -/
theorem batched_partition_witness :
    (batched [1, 2, 3, 4, 5] 2).flatten = [1, 2, 3, 4, 5] ∧
    (∀ b ∈ batched [1, 2, 3, 4, 5] 2, b ≠ [] ∧ b.length ≤ 2) ∧
    (∀ b ∈ (batched [1, 2, 3, 4, 5] 2).dropLast, b.length = 2) ∧
    ([1, 2, 3, 4, 5] = ([] : List Nat) → batched [1, 2, 3, 4, 5] 2 = []) :=
  batched_partition [1, 2, 3, 4, 5] 2 (by decide)

/-- C8: every path yielded by `iter_code_files` is a regular file; when
`include_hidden` is false none of its relative components starts with a
dot; when the extension allow-list is non-empty its lower-cased suffix is
in the list; its size was obtained from a successful `stat` and does not
exceed `max_file_mb * 1024 * 1024` bytes; and an entry whose `stat` raises
`OSError` is silently skipped, never yielded. -/
theorem iter_code_files_filters (entries : List FSEntry)
    (extensions : List (List Char)) (include_hidden : Bool)
    (max_file_mb : ℚ) :
    (∀ e ∈ iter_code_files entries extensions include_hidden max_file_mb,
      e.is_file = true ∧
      (include_hidden = false →
        ∀ part ∈ e.rel_parts, startsWithDot part = false) ∧
      (extensions ≠ [] → lowerStr e.suffix ∈ extensions) ∧
      ∃ n, e.stat_size = some n ∧ (n : ℚ) ≤ max_file_mb * 1024 * 1024) ∧
    (∀ e, e.stat_size = none →
      e ∉ iter_code_files entries extensions include_hidden max_file_mb) := by
  constructor
  · intro e he
    obtain ⟨-, hcond⟩ := List.mem_filter.mp he
    simp only [Bool.and_eq_true] at hcond
    obtain ⟨⟨⟨hfile, hhid⟩, hext⟩, hsize⟩ := hcond
    refine ⟨hfile, ?_, ?_, ?_⟩
    · intro hih part hpart
      rw [hih] at hhid
      simp only [Bool.false_or, Bool.not_eq_true'] at hhid
      simpa using List.any_eq_false.mp hhid part hpart
    · intro hne
      have hie : extensions.isEmpty = false := by
        simp [List.isEmpty_iff, hne]
      rw [hie] at hext
      simp only [Bool.false_or, decide_eq_true_eq] at hext
      exact hext
    · cases hst : e.stat_size with
      | none =>
        rw [hst] at hsize
        exact absurd hsize (by simp)
      | some n =>
        rw [hst] at hsize
        simp only [decide_eq_true_eq] at hsize
        exact ⟨n, rfl, hsize⟩
  · intro e hst he
    obtain ⟨-, hcond⟩ := List.mem_filter.mp he
    simp only [Bool.and_eq_true] at hcond
    obtain ⟨-, hsize⟩ := hcond
    rw [hst] at hsize
    exact absurd hsize (by simp)

/-- C8 witness: an entry whose `stat` raises `OSError` is not yielded even
though it passes every other filter. -/
theorem iter_code_files_filters_witness :
    (FSEntry.mk [("b.py").data] true (".py").data Option.none) ∉
      iter_code_files
        [FSEntry.mk [("a.py").data] true (".py").data (some 10),
         FSEntry.mk [("b.py").data] true (".py").data Option.none]
        [(".py").data] false 1 :=
  (iter_code_files_filters _ _ _ _).2 _ rfl

/-- C9: `query_codebase` rejects every `top_k ≤ 0` and `list_rows` rejects
every `limit ≤ 0` and every `offset < 0`: the validation error is returned
(the `ValueError` is raised) before any `StoreEffect` is produced, i.e.
before any collection is opened, queried or read. -/
theorem tool_validation_rejects (question : List Char) (top_k : Int)
    (collection db_dir : List Char) (limit offset : Int)
    (include_documents : Bool) :
    (top_k ≤ 0 →
      query_codebase question top_k collection db_dir =
        Except.error ((("top_k").data) ++ ((" must be greater than zero.").data))) ∧
    (limit ≤ 0 →
      list_rows collection db_dir limit offset include_documents =
        Except.error ((("limit").data) ++ ((" must be greater than zero.").data))) ∧
    (0 < limit → offset < 0 →
      list_rows collection db_dir limit offset include_documents =
        Except.error (("offset must be zero or greater.").data)) := by
  refine ⟨?_, ?_, ?_⟩
  · intro h
    simp [query_codebase, validate_positive, h]
  · intro h
    simp [list_rows, validate_positive, h]
  · intro hl hoff
    have hnl : ¬ limit ≤ 0 := by omega
    simp [list_rows, validate_positive, hnl, hoff]

/-- C9 witness: `top_k = 0` and `(limit, offset) = (5, -1)` are both
rejected with the exact validation messages. -/
theorem tool_validation_rejects_witness :
    query_codebase (("q").data) 0 (("c").data) (("d").data) =
      Except.error ((("top_k").data) ++ ((" must be greater than zero.").data)) ∧
    list_rows (("c").data) (("d").data) 5 (-1) false =
      Except.error (("offset must be zero or greater.").data) :=
  ⟨(tool_validation_rejects (("q").data) 0 (("c").data) (("d").data)
      5 (-1) false).1 (by decide),
   (tool_validation_rejects (("q").data) 0 (("c").data) (("d").data)
      5 (-1) false).2.2 (by decide) (by decide)⟩

lemma mem_cleanMetadata (m : Option (List (List Char × PyVal))) (k v : List Char) :
    (k, v) ∈ cleanMetadata m ↔
      ∃ pv, (k, pv) ∈ m.getD [] ∧ pv ≠ PyVal.none ∧ v = pyStr pv := by
  unfold cleanMetadata
  rw [List.mem_filterMap]
  constructor
  · rintro ⟨kv, hkv, hf⟩
    split at hf
    · exact absurd hf (by simp)
    · rename_i hcond
      have hinj := Option.some.inj hf
      have hk : kv.1 = k := congrArg Prod.fst hinj
      have hv : pyStr kv.2 = v := congrArg Prod.snd hinj
      refine ⟨kv.2, ?_, hcond, hv.symm⟩
      have hkv2 : kv = (k, kv.2) := by
        rw [← hk]
      rw [← hkv2]
      exact hkv
  · rintro ⟨pv, hpv, hne, hv⟩
    refine ⟨(k, pv), hpv, ?_⟩
    simp [hne, hv]

lemma map_zip3_getElem {α β γ δ : Type} (f : α × β × γ → δ) :
    ∀ (i : Nat) (ms : List α) (ds : List β) (xs : List γ),
      i < ms.length → i < ds.length → i < xs.length →
      ∃ m d x, ms[i]? = some m ∧ ds[i]? = some d ∧ xs[i]? = some x ∧
        ((ms.zip (ds.zip xs)).map f)[i]? = some (f (m, d, x)) := by
  intro i
  induction i with
  | zero =>
    intro ms ds xs hm hd hx
    cases ms with
    | nil => simp at hm
    | cons m ms2 =>
      cases ds with
      | nil => simp at hd
      | cons d ds2 =>
        cases xs with
        | nil => simp at hx
        | cons x xs2 => exact ⟨m, d, x, by simp, by simp, by simp, by simp⟩
  | succ i ih =>
    intro ms ds xs hm hd hx
    cases ms with
    | nil => simp at hm
    | cons m ms2 =>
      cases ds with
      | nil => simp at hd
      | cons d ds2 =>
        cases xs with
        | nil => simp at hx
        | cons x xs2 =>
          have hrec := ih ms2 ds2 xs2 (by simp at hm; omega)
            (by simp at hd; omega) (by simp at hx; omega)
          simpa using hrec

/-- C6: given a well-formed store reply (the three parallel lists present
and of equal length, as the store contract guarantees),
`query_collection_clean` returns one cleaned triple per reply position, in
the store's returned order: position `i` of the output is built from
position `i` of the inputs, with a `None` document defaulted to `""` and
a `None` distance defaulted to `0.0`; and the cleaned metadata map keeps
exactly the keys whose value was not `None`, with values coerced by
`str`. -/
theorem query_collection_clean_spec (reply : QueryReply)
    (ms : List (Option (List (List Char × PyVal))))
    (ds : List (Option (List Char))) (xs : List (Option ℚ))
    (hm : reply.metadatas = some ms) (hd : reply.documents = some ds)
    (hx : reply.distances = some xs)
    (hmd : ms.length = ds.length) (hdx : ds.length = xs.length) :
    (query_collection_clean reply).length = ms.length ∧
    (∀ i, i < ms.length →
      ∃ m d x, ms[i]? = some m ∧ ds[i]? = some d ∧ xs[i]? = some x ∧
        (query_collection_clean reply)[i]? =
          some (cleanMetadata m, d.getD [], x.getD 0)) ∧
    (∀ (m : Option (List (List Char × PyVal))) (k v : List Char),
      (k, v) ∈ cleanMetadata m ↔
        ∃ pv, (k, pv) ∈ m.getD [] ∧ pv ≠ PyVal.none ∧ v = pyStr pv) := by
  have hq : query_collection_clean reply =
      (ms.zip (ds.zip xs)).map (fun t =>
        (cleanMetadata t.1, (t.2.1).getD [], (t.2.2).getD 0)) := by
    unfold query_collection_clean
    rw [hm, hd, hx]
    rfl
  refine ⟨?_, ?_, fun m k v => mem_cleanMetadata m k v⟩
  · rw [hq]
    simp [List.length_zip]
    omega
  · intro i hi
    rw [hq]
    exact map_zip3_getElem _ i ms ds xs hi (by omega) (by omega)

/-- C6 witness: a one-row reply whose metadata, document and distance are
all `None` cleans to one triple. -/
theorem query_collection_clean_spec_witness :
    (query_collection_clean
      (QueryReply.mk (some [Option.none]) (some [Option.none])
        (some [Option.none]))).length =
      ([Option.none] : List (Option (List (List Char × PyVal)))).length :=
  (query_collection_clean_spec _ [Option.none] [Option.none] [Option.none]
    rfl rfl rfl rfl rfl).1

/-- C1 witness: the window-structure theorem at the one-line file `"b"`. -/
theorem chunk_text_window_structure_witness :
    chunk_text (("b").data) 1 0 =
      specChunks (splitlines (("b").data)) 1 (stepOf 1 0) ∧
    (chunk_text (("b").data) 1 0).Pairwise (fun p q => p.2.1 < q.2.1) :=
  chunk_text_window_structure (("b").data) 1 0

/-- C4 witness: the id-form theorem at a single two-line file. -/
theorem discover_chunks_id_form_witness :
    (discover_chunks [SrcFile.mk (("f").data) (some textAB)] 1 0
        (("s").data) (("k").data)).map (fun ch => ch.doc_id) =
      [SrcFile.mk (("f").data) (some textAB)].flatMap (fun f =>
        match f.content with
        | none => []
        | some text =>
          (List.range (chunk_text text 1 0).length).map (mkDocId f.rel)) :=
  discover_chunks_id_form [SrcFile.mk (("f").data) (some textAB)] 1 0
    (("s").data) (("k").data)

/-- C10 witness: the sequential-id equation at the file `" \nb"` whose
first window is dropped. -/
theorem fileChunks_sequential_ids_witness :
    (fileChunks (("s").data) (("f").data) textWsB 1 0 (("k").data)).map
        (fun ch => ch.doc_id) =
      (List.range (chunk_text textWsB 1 0).length).map (mkDocId (("f").data)) :=
  fileChunks_sequential_ids.1 (("s").data) (("f").data) textWsB 1 0 (("k").data)
